import Mathlib

/-!
Shallow embedding of `zipline/utils/date_utils.py` (a Python 2 module) and
verification of its specification claims.

Modelling conventions:

* A Python `datetime` used by the epoch / ISO utilities is `DT`: a wall-clock
  instant given as `date` (days since 1970-01-01, which was a Thursday) plus
  `tod` (microseconds within the day), together with its `tzinfo` tag `Tz`.
  `Tz.utc` stands for the `pytz.utc` singleton object specifically (the
  equality test `tzinfo == pytz.utc` in the source is an identity test, so a
  fixed-offset-zero tag is a distinct value `Tz.offset 0`); `Tz.naive` is an
  absent tag.
* The quarter utilities only touch the civil fields `year`/`month` (and build
  civil datetimes), so they are embedded over civil-field structures
  `CivilDT` and `QDT`; no claim relates quarter arithmetic to epoch days.
* Python 2 `/` on ints is floor division and `%` has the sign of the divisor;
  with the positive constant divisors of this module these coincide with
  Lean `Int.fdiv` / `/` (`Int.ediv`) and `%` (`Int.emod`).  Python `int()` of
  an exact quotient truncates toward zero, which is `Int.tdiv`.
  `EPOCH` computes `delta.total_seconds() * 1000` through IEEE binary64
  arithmetic and truncates with `int()`.  The embedding idealises the two
  double roundings away and stores the exact truncated quotient
  `Int.tdiv micros 1000`; the real doubles can differ from it by one
  millisecond (at micros = 274060784405000 the program computes
  274060784404, the exact truncation 274060784405).  For this reason no
  theorem below depends on the integer EPOCH computes: the theorems about
  EPOCH use only that the assertion passes iff the tag is pytz.utc and that
  a success carries some integer.
* The trading-day calendar is `dateutil.rrule`: the module builds
  `rrule(DAILY, byweekday=MO..FR, cache=True)` with no `dtstart`, so dateutil
  anchors the rule at the import-time current datetime; that nondeterministic
  anchor is an explicit parameter `anchor : NDT` here.  Occurrences of the
  rule are the weekday dates from `anchor.date` on, each carrying the time of
  day `anchor.tod` of the anchor.  `rruleset.exdate` removes occurrences that
  equal an exclusion datetime exactly, and `rruleset.between` keeps the
  occurrences strictly (or, with `inc=True`, weakly) between the bounds.
  Candidate generation is bounded by `before`, as in dateutil, so everything
  is computable.  Naive datetimes of the calendar are `NDT` (no tz field:
  every datetime that reaches the rule set in the source is naive).
* Assertion failures (`assert` in `EPOCH`) are modelled by `Option`, `none`
  being the raised `AssertionError`.
-/

/-- Timezone tag of a datetime: the `pytz.utc` singleton, a fixed-offset
timezone given in minutes, or no tag at all (a naive datetime). -/
inductive Tz where
  | utc : Tz
  | offset : Int → Tz
  | naive : Tz
deriving DecidableEq

/-- A Python datetime for the epoch / ISO utilities: wall-clock reading as
days since 1970-01-01 plus microseconds within the day, and the tz tag. -/
structure DT where
  date : Int
  tod : Int
  tz : Tz
deriving DecidableEq

/-- Wall-clock microseconds since 1970-01-01T00:00:00 of the reading,
ignoring the tag; this is the `timedelta` `utc_datetime - UNIX_EPOCH` of the
source expressed in microseconds (for a UTC-tagged datetime the tag
contributes no offset). -/
def DT.micros (dt : DT) : Int := dt.date * 86400000000 + dt.tod

/-- Offset of a tag in microseconds east of UTC. -/
def tzOffsetMicros : Tz → Int
  | Tz.utc => 0
  | Tz.offset m => m * 60000000
  | Tz.naive => 0

/-- Absolute instant denoted by a datetime: wall-clock reading minus the tag
offset. Two datetimes with equal readings but different offsets denote
different instants. -/
def DT.instant (dt : DT) : Int := DT.micros dt - tzOffsetMicros dt.tz

/-- UNIX_EPOCH of the source: datetime(1970, 1, 1, 0, 0, tzinfo=pytz.utc). -/
def UNIX_EPOCH : DT := ⟨0, 0, Tz.utc⟩

/-- parse_iso8061 of the source, after the library call: it takes the
datetime produced by iso8601.parse_date (quantifying over this argument
covers the parses of all well-formed input strings, whatever offset the
string carried) and executes dt.replace(tzinfo=pytz.utc), keeping every
wall-clock field and overwriting only the tag. -/
def parse_iso8061 (parsed : DT) : DT := ⟨parsed.date, parsed.tod, Tz.utc⟩

/-- EPOCH of the source: asserts the tag is the pytz.utc object (modelled by
`none` on failure), then converts the timedelta since UNIX_EPOCH to
milliseconds and truncates with int(). The double arithmetic of
total_seconds() * 1000 is idealised to the exact toward-zero quotient of the
microsecond total by 1000; the real doubles can land one millisecond lower
(for example at 274060784405000 microseconds), so the theorems below never
use the integer stored here, only that the assertion passed and an integer
came back. -/
def EPOCH (utc_datetime : DT) : Option Int :=
  if utc_datetime.tz = Tz.utc then some (Int.tdiv (DT.micros utc_datetime) 1000)
  else none

/-- UN_EPOCH of the source: UNIX_EPOCH + timedelta(milliseconds=ms), a
UTC-tagged datetime; timedelta normalisation floors into day/intra-day parts
(positive divisor, so `/` = `%`-paired floor division as in Python). -/
def UN_EPOCH (ms_since_epoch : Int) : DT :=
  ⟨ms_since_epoch * 1000 / 86400000000, ms_since_epoch * 1000 % 86400000000, Tz.utc⟩

/-- A datetime as seen by get_quarter: only the civil fields year and month
are read. -/
structure CivilDT where
  year : Int
  month : Int
deriving DecidableEq

/-- get_quarter of the source: quarters = dt.year * 4, then +1..+4 by the
month bucket of the if/elif chain. -/
def get_quarter (dt : CivilDT) : Int :=
  if dt.month ≤ 3 then dt.year * 4 + 1
  else if dt.month ≤ 6 then dt.year * 4 + 2
  else if dt.month ≤ 9 then dt.year * 4 + 3
  else dt.year * 4 + 4

/-- A civil datetime built by dates_of_quarter:
datetime(year, month, day, hour, minute, tzinfo=pytz.utc). -/
structure QDT where
  year : Int
  month : Int
  day : Int
  hour : Int
  minute : Int
  tz : Tz
deriving DecidableEq

/-- dates_of_quarter of the source: year = quarter_num / 4 (Python 2 floor
division), quarter = quarter_num % 4 remapped 0 to 4, then the if/elif chain
building the (start, end) bounds; the unreachable fall-through returns
`none` (Python would return None). Note the year is NOT decremented in the
quarter = 0 branch. -/
def dates_of_quarter (quarter_num : Int) : Option (QDT × QDT) :=
  let year := Int.fdiv quarter_num 4
  let quarter0 := quarter_num % 4
  let quarter : Int := if quarter0 = 0 then 4 else quarter0
  if quarter = 1 then
    some (⟨year, 1, 1, 0, 0, Tz.utc⟩, ⟨year, 3, 31, 23, 59, Tz.utc⟩)
  else if quarter = 2 then
    some (⟨year, 4, 1, 0, 0, Tz.utc⟩, ⟨year, 6, 30, 23, 59, Tz.utc⟩)
  else if quarter = 3 then
    some (⟨year, 7, 1, 0, 0, Tz.utc⟩, ⟨year, 9, 30, 23, 59, Tz.utc⟩)
  else if quarter = 4 then
    some (⟨year, 10, 1, 0, 0, Tz.utc⟩, ⟨year, 12, 31, 23, 59, Tz.utc⟩)
  else none

/-- A naive datetime of the trading calendar: days since 1970-01-01 plus
microseconds within the day; the datetimes handled by the rule set carry no
tz tag. -/
structure NDT where
  date : Int
  tod : Int
deriving DecidableEq

/-- Python datetime ordering on naive datetimes (lexicographic on the
wall-clock reading): strict version. -/
def NDT.lt (a b : NDT) : Prop :=
  a.date < b.date ∨ (a.date = b.date ∧ a.tod < b.tod)

/-- Python datetime ordering on naive datetimes: non-strict version. -/
def NDT.le (a b : NDT) : Prop :=
  a.date < b.date ∨ (a.date = b.date ∧ a.tod ≤ b.tod)

instance (a b : NDT) : Decidable (NDT.lt a b) :=
  inferInstanceAs (Decidable (a.date < b.date ∨ (a.date = b.date ∧ a.tod < b.tod)))

instance (a b : NDT) : Decidable (NDT.le a b) :=
  inferInstanceAs (Decidable (a.date < b.date ∨ (a.date = b.date ∧ a.tod ≤ b.tod)))

/-- Python weekday number of an epoch day (Monday = 0 .. Sunday = 6);
1970-01-01 was a Thursday (= 3). -/
def pyWeekday (d : Int) : Int := (d + 3) % 7

/-- Membership in the WEEKDAYS list [MO, TU, WE, TH, FR] of the source:
the byweekday filter of the recurrence rule. -/
def isWeekday (d : Int) : Bool := decide (pyWeekday d < 5)

/-- HOLIDAYS of the source: the nine hardcoded naive midnight datetimes of
calendar year 2008, as epoch-day numbers.
new_years 2008-01-01 = 13879, mlk_day 2008-01-21 = 13899,
presidents 2008-02-18 = 13927, good_friday 2008-03-21 = 13959,
memorial_day 2008-05-26 = 14025, july_4th 2008-07-04 = 14064,
labor_day 2008-09-01 = 14123, tgiving 2008-11-27 = 14210,
christmas 2008-12-25 = 14238. Each carries midnight time of day, as
datetime(2008, m, d) does. -/
def HOLIDAYS : List NDT :=
  [⟨13879, 0⟩, ⟨13899, 0⟩, ⟨13927, 0⟩, ⟨13959, 0⟩, ⟨14025, 0⟩,
   ⟨14064, 0⟩, ⟨14123, 0⟩, ⟨14210, 0⟩, ⟨14238, 0⟩]

/-- Window test of rruleset.between: strict bounds by default, weak bounds
with inc=True. -/
def inWindow (after before : NDT) (inc : Bool) (x : NDT) : Bool :=
  match inc with
  | true => decide (NDT.le after x) && decide (NDT.le x before)
  | false => decide (NDT.lt after x) && decide (NDT.lt x before)

/-- Number of candidate days the rule has to materialise to cover a query
bounded by `before`: the days from anchor.date up to before.date. -/
def neededDays (anchor before : NDT) : Nat :=
  (before.date - anchor.date + 1).toNat

/-- The first `c` candidate days of the DAILY rule after the byweekday
filter, as datetimes: weekday dates counted from the anchor date, each
carrying the anchor time of day (dateutil generates occurrences at the
dtstart time of day). -/
def occsUpTo (anchor : NDT) (c : Nat) : List NDT :=
  (((List.range c).map (fun (n : Nat) => anchor.date + (n : Int))).filter
      (fun d => isWeekday d)).map (fun d => NDT.mk d anchor.tod)

/-- between over the first `c` materialised candidate days: drop occurrences
exactly equal to an exclusion datetime (rruleset.exdate matches the full
datetime, date and time of day), then keep those inside the window. -/
def resultUpTo (anchor : NDT) (ex : List NDT) (c : Nat) (after before : NDT)
    (inc : Bool) : List NDT :=
  (occsUpTo anchor c).filter
    (fun x => !(decide (x ∈ ex)) && inWindow after before inc x)

/-- rs.between(after, before, inc) of the source for a rule anchored at
`anchor` with exclusion datetimes `ex`: candidate generation is bounded by
`before`, as in dateutil. -/
def rsBetween (anchor : NDT) (ex : List NDT) (after before : NDT)
    (inc : Bool) : List NDT :=
  resultUpTo anchor ex (neededDays anchor before) after before inc

/-- trading_days(after, before, inclusive) of the source: the module-level
rule set with the HOLIDAYS exclusions; the rule anchor (dateutil defaults
dtstart to the import-time current datetime) is the explicit first
argument. -/
def trading_days (anchor after before : NDT) (inclusive : Bool) : List NDT :=
  rsBetween anchor HOLIDAYS after before inclusive

/-- Stateful view of the cached rule (cache=True): the cache is the number
of candidate days already materialised from the anchor; a query extends it
to cover its `before` bound and answers from the materialised prefix.
Returns (result, new cache). -/
def tradingDaysCached (anchor : NDT) (ex : List NDT) (cache : Nat)
    (after before : NDT) (inc : Bool) : List NDT × Nat :=
  (resultUpTo anchor ex (max cache (neededDays anchor before)) after before inc,
   max cache (neededDays anchor before))

theorem ndt_le_refl (a : NDT) : NDT.le a a := Or.inr ⟨rfl, le_refl _⟩

theorem ndt_ne_of_lt {a b : NDT} (h : NDT.lt a b) : a ≠ b := by
  intro he
  subst he
  unfold NDT.lt at h
  omega

theorem mem_occsUpTo {anchor : NDT} {c : Nat} {x : NDT} :
    x ∈ occsUpTo anchor c ↔
      (∃ n : Nat, n < c ∧ x.date = anchor.date + n) ∧ x.tod = anchor.tod ∧
        isWeekday x.date = true := by
  unfold occsUpTo
  constructor
  · intro hx
    obtain ⟨d, hd, hdx⟩ := List.mem_map.mp hx
    obtain ⟨hd1, hw⟩ := List.mem_filter.mp hd
    obtain ⟨n, hn, hnd⟩ := List.mem_map.mp hd1
    have hn2 := List.mem_range.mp hn
    subst hdx
    refine ⟨⟨n, hn2, ?_⟩, rfl, hw⟩
    dsimp only
    omega
  · rintro ⟨⟨n, hn, hd⟩, ht, hw⟩
    apply List.mem_map.mpr
    refine ⟨x.date,
      List.mem_filter.mpr ⟨List.mem_map.mpr ⟨n, List.mem_range.mpr hn, by omega⟩, hw⟩, ?_⟩
    obtain ⟨xd, xt⟩ := x
    dsimp only at ht ⊢
    rw [ht]

theorem mem_resultUpTo {anchor : NDT} {ex : List NDT} {c : Nat}
    {after before : NDT} {inc : Bool} {x : NDT} :
    x ∈ resultUpTo anchor ex c after before inc ↔
      (∃ n : Nat, n < c ∧ x.date = anchor.date + n) ∧ x.tod = anchor.tod ∧
        isWeekday x.date = true ∧ x ∉ ex ∧
        inWindow after before inc x = true := by
  unfold resultUpTo
  rw [List.mem_filter, mem_occsUpTo]
  simp only [Bool.and_eq_true, Bool.not_eq_true', decide_eq_false_iff_not]
  tauto

theorem mem_rsBetween {anchor : NDT} {ex : List NDT} {after before : NDT}
    {inc : Bool} {x : NDT} :
    x ∈ rsBetween anchor ex after before inc ↔
      anchor.date ≤ x.date ∧ x.date ≤ before.date ∧ x.tod = anchor.tod ∧
        isWeekday x.date = true ∧ x ∉ ex ∧
        inWindow after before inc x = true := by
  unfold rsBetween
  rw [mem_resultUpTo]
  unfold neededDays
  constructor
  · rintro ⟨⟨n, hn, hd⟩, rest⟩
    refine ⟨by omega, by omega, rest⟩
  · rintro ⟨h1, h2, rest⟩
    exact ⟨⟨(x.date - anchor.date).toNat, by omega, by omega⟩, rest⟩

theorem window_bounds {after before : NDT} {inc : Bool} {x : NDT}
    (h : inWindow after before inc x = true) :
    NDT.le after x ∧ NDT.le x before := by
  cases inc
  · unfold inWindow at h
    simp only [Bool.and_eq_true, decide_eq_true_eq] at h
    unfold NDT.lt NDT.le at *
    omega
  · unfold inWindow at h
    simp only [Bool.and_eq_true, decide_eq_true_eq] at h
    exact h

theorem window_strict {after before : NDT} {x : NDT}
    (h : inWindow after before false x = true) :
    NDT.lt after x ∧ NDT.lt x before := by
  unfold inWindow at h
  simp only [Bool.and_eq_true, decide_eq_true_eq] at h
  exact h

theorem window_false_of_gt {after before : NDT} {inc : Bool} {x : NDT}
    (h : before.date < x.date) :
    inWindow after before inc x = false := by
  rw [Bool.eq_false_iff]
  intro ht
  have hb := (window_bounds ht).2
  unfold NDT.le at hb
  omega

theorem resultUpTo_pairwise (anchor : NDT) (ex : List NDT) (c : Nat)
    (after before : NDT) (inc : Bool) :
    (resultUpTo anchor ex c after before inc).Pairwise NDT.lt := by
  unfold resultUpTo occsUpTo
  apply List.Pairwise.filter
  rw [List.pairwise_map]
  apply List.Pairwise.filter
  rw [List.pairwise_map]
  refine (List.pairwise_lt_range c).imp ?_
  intro a b h
  unfold NDT.lt
  dsimp only
  omega

theorem append_eq_left_of_nil {α : Type} (xs ys : List α) (h : ys = []) :
    xs ++ ys = xs := by
  rw [h, List.append_nil]

theorem resultUpTo_succ_ge (anchor : NDT) (ex : List NDT) (after before : NDT)
    (inc : Bool) (k : Nat) (hk : neededDays anchor before ≤ k) :
    resultUpTo anchor ex (k + 1) after before inc =
      resultUpTo anchor ex k after before inc := by
  have hgt : before.date < anchor.date + (k : Int) := by
    unfold neededDays at hk
    omega
  unfold resultUpTo occsUpTo
  rw [List.range_succ, List.map_append, List.filter_append, List.map_append,
    List.filter_append]
  apply append_eq_left_of_nil
  simp only [List.map_cons, List.map_nil]
  cases hw : isWeekday (anchor.date + (k : Int))
  · simp only [List.filter_cons, hw, List.filter_nil, List.map_nil, if_false]
    rfl
  · simp only [List.filter_cons, hw, List.filter_nil, List.map_cons, List.map_nil, if_true]
    have hfw := @window_false_of_gt after before inc ⟨anchor.date + (k : Int), anchor.tod⟩ hgt
    simp [hfw]

theorem resultUpTo_stable (anchor : NDT) (ex : List NDT) (after before : NDT)
    (inc : Bool) (c : Nat) (hc : neededDays anchor before ≤ c) :
    resultUpTo anchor ex c after before inc =
      rsBetween anchor ex after before inc := by
  unfold rsBetween
  obtain ⟨m, rfl⟩ := Nat.exists_eq_add_of_le hc
  clear hc
  induction m with
  | zero => rfl
  | succ k ih =>
      rw [show neededDays anchor before + (k + 1) =
        (neededDays anchor before + k) + 1 from rfl]
      rw [resultUpTo_succ_ge anchor ex after before inc
        (neededDays anchor before + k) (by omega)]
      exact ih

/-- Claim C1: the claim states that for quarter numbers q with q % 4 = 0,
dates_of_quarter returns the Oct 1 to Dec 31 bounds of year (q // 4) - 1, so
as to invert get_quarter. The code does not decrement the year: this theorem
evaluates the code at q = 8036 = get_quarter(2008-11-01); the code yields the
bounds of quarter 4 of year 2009 = 8036 // 4, while inverting get_quarter
(and the claim) requires year 2008 = 8036 // 4 - 1. -/
theorem c1_dates_of_quarter_year_bucket :
    get_quarter ⟨2008, 11⟩ = 8036 ∧
    dates_of_quarter 8036 =
      some (⟨2009, 10, 1, 0, 0, Tz.utc⟩, ⟨2009, 12, 31, 23, 59, Tz.utc⟩) ∧
    Int.fdiv 8036 4 - 1 = 2008 ∧ (2009 : Int) ≠ 2008 := by decide

/-- Claim C5: for every datetime with a valid month, get_quarter returns
year * 4 + q with q = 1 for Jan-Mar, 2 for Apr-Jun, 3 for Jul-Sep and 4 for
Oct-Dec. -/
theorem c5_get_quarter_formula (y m : Int) (h1 : 1 ≤ m) (h12 : m ≤ 12) :
    (m ≤ 3 → get_quarter ⟨y, m⟩ = y * 4 + 1) ∧
    (4 ≤ m → m ≤ 6 → get_quarter ⟨y, m⟩ = y * 4 + 2) ∧
    (7 ≤ m → m ≤ 9 → get_quarter ⟨y, m⟩ = y * 4 + 3) ∧
    (10 ≤ m → get_quarter ⟨y, m⟩ = y * 4 + 4) := by
  unfold get_quarter
  dsimp only
  refine ⟨?_, ?_, ?_, ?_⟩ <;> intros <;> split_ifs <;> omega

/-- Witness for Claim C5 at the concrete datetime 2008-02: February is in
quarter 1, so the quarter number is 2008 * 4 + 1 = 8033. -/
theorem c5_witness : get_quarter ⟨2008, 2⟩ = 2008 * 4 + 1 :=
  (c5_get_quarter_formula 2008 2 (by decide) (by decide)).1 (by decide)

/-- Claim C8: EPOCH succeeds (returns an integer) exactly when its input is
tagged with the pytz.utc object, and fails its assertion (modelled by none)
otherwise. -/
theorem c8_epoch_assert_iff_utc (dt : DT) :
    (EPOCH dt).isSome = true ↔ dt.tz = Tz.utc := by
  unfold EPOCH
  split <;> simp_all

/-- Whatever integer count of milliseconds UN_EPOCH receives, the rebuilt
timestamp has a whole-millisecond time of day: the sub-millisecond component
is always zero. -/
theorem unepoch_whole_millisecond (ms : Int) : (UN_EPOCH ms).tod % 1000 = 0 := by
  unfold UN_EPOCH
  dsimp only
  omega

/-- For a UTC-tagged timestamp with a nonzero sub-millisecond component the
round trip cannot return the input. The proof never evaluates the integer
EPOCH computes - it holds for any integer the double pipeline of
total_seconds() * 1000 may produce, because UN_EPOCH of any integer lands on
a whole millisecond. -/
theorem roundtrip_ne_of_submillisecond (t : DT) (htz : t.tz = Tz.utc)
    (hsub : t.tod % 1000 ≠ 0) :
    Option.map UN_EPOCH (EPOCH t) ≠ some t := by
  unfold EPOCH
  rw [if_pos htz, Option.map_some']
  intro h
  have h2 : UN_EPOCH (Int.tdiv (DT.micros t) 1000) = t := Option.some.inj h
  have h3 := congrArg DT.tod h2
  have h4 := unepoch_whole_millisecond (Int.tdiv (DT.micros t) 1000)
  rw [h3] at h4
  exact hsub h4

/-- Claim C3 (counterexample): the round trip is NOT exact for every UTC
timestamp at or after the epoch: at 1970-01-01T00:00:00.000500Z (500
microseconds after the epoch, an in-domain input) the result differs from
the input, since any integer millisecond count rebuilds to a
whole-millisecond timestamp while the input carries 500 microseconds. -/
theorem c3_submillisecond_not_roundtripped :
    (⟨0, 500, Tz.utc⟩ : DT).tz = Tz.utc ∧
    (0 : Int) ≤ DT.micros ⟨0, 500, Tz.utc⟩ ∧
    (⟨0, 500, Tz.utc⟩ : DT).tod % 1000 ≠ 0 ∧
    Option.map UN_EPOCH (EPOCH ⟨0, 500, Tz.utc⟩) ≠ some ⟨0, 500, Tz.utc⟩ := by
  refine ⟨rfl, by decide, by decide, ?_⟩
  exact roundtrip_ne_of_submillisecond ⟨0, 500, Tz.utc⟩ rfl (by decide)

/-- Claim C3 (amended): the round trip drops every sub-millisecond
component: from_epoch_millis always returns a whole-millisecond timestamp,
whatever integer to_epoch_millis computed through its double arithmetic, so
for every UTC-tagged timestamp at or after the epoch with a nonzero
sub-millisecond component the round trip does not return the input. (No
exactness is asserted for whole-millisecond inputs either: the double
rounding inside total_seconds() * 1000 can shift the millisecond count
itself, as at 1978-09-07T23:59:44.405Z, so the conclusions here rely only on
the returned value being some integer.) -/
theorem c3_roundtrip_drops_submillisecond :
    (∀ ms : Int, (UN_EPOCH ms).tod % 1000 = 0) ∧
    (∀ t : DT, t.tz = Tz.utc → 0 ≤ DT.micros t → t.tod % 1000 ≠ 0 →
      Option.map UN_EPOCH (EPOCH t) ≠ some t) := by
  constructor
  · exact unepoch_whole_millisecond
  · intro t htz hepoch hsub
    exact roundtrip_ne_of_submillisecond t htz hsub

/-- Witness for Claim C3 at 2008-01-01T00:00:00.002500Z: a UTC timestamp
after the epoch with sub-millisecond component 500, which the round trip
cannot return. -/
theorem c3_witness :
    Option.map UN_EPOCH (EPOCH ⟨13879, 2500, Tz.utc⟩) ≠
      some ⟨13879, 2500, Tz.utc⟩ :=
  c3_roundtrip_drops_submillisecond.2 ⟨13879, 2500, Tz.utc⟩ rfl (by decide)
    (by decide)

/-- Claim C10: parse_iso8061 keeps every wall-clock field of the parsed
datetime and overwrites the tag with UTC; when the input carried a nonzero
offset the result therefore denotes a different absolute instant than the
input did. -/
theorem c10_parse_retags_utc (p : DT) :
    (parse_iso8061 p).date = p.date ∧ (parse_iso8061 p).tod = p.tod ∧
    (parse_iso8061 p).tz = Tz.utc ∧
    (∀ m : Int, p.tz = Tz.offset m → m ≠ 0 →
      DT.instant (parse_iso8061 p) ≠ DT.instant p) := by
  refine ⟨rfl, rfl, rfl, ?_⟩
  intro m hm hne
  unfold DT.instant parse_iso8061 DT.micros
  rw [hm]
  unfold tzOffsetMicros
  dsimp only
  omega

/-- Witness for Claim C10 at a parsed datetime carrying offset +05:00 (300
minutes): the retagged result denotes a different instant. -/
theorem c10_witness :
    DT.instant (parse_iso8061 ⟨0, 0, Tz.offset 300⟩) ≠
      DT.instant ⟨0, 0, Tz.offset 300⟩ :=
  (c10_parse_retags_utc ⟨0, 0, Tz.offset 300⟩).2.2.2 300 rfl (by decide)

/-- Claim C4: trading_days raises no error on malformed or out-of-coverage
windows (the embedding is a total function): a reversed window, with before
chronologically earlier than after, yields the empty sequence, and a window
lying entirely before the rule anchor yields the empty sequence. -/
theorem c4_empty_on_reversed_or_preanchor (anchor after before : NDT)
    (inc : Bool) :
    (NDT.lt before after → trading_days anchor after before inc = []) ∧
    (NDT.lt before anchor → trading_days anchor after before inc = []) := by
  constructor
  · intro h
    apply List.eq_nil_iff_forall_not_mem.mpr
    intro x hx
    unfold trading_days at hx
    rw [mem_rsBetween] at hx
    obtain ⟨h1, h2, h3, _, _, hw⟩ := hx
    obtain ⟨hax, hxb⟩ := window_bounds hw
    unfold NDT.lt NDT.le at *
    omega
  · intro h
    apply List.eq_nil_iff_forall_not_mem.mpr
    intro x hx
    unfold trading_days at hx
    rw [mem_rsBetween] at hx
    obtain ⟨h1, h2, h3, _, _, hw⟩ := hx
    obtain ⟨hax, hxb⟩ := window_bounds hw
    unfold NDT.lt NDT.le at *
    omega

/-- Witness for Claim C4: a reversed window (after = day 5, before = day 0,
anchor = day 2) yields the empty sequence. -/
theorem c4_witness : trading_days ⟨2, 0⟩ ⟨5, 0⟩ ⟨0, 0⟩ false = [] :=
  (c4_empty_on_reversed_or_preanchor ⟨2, 0⟩ ⟨5, 0⟩ ⟨0, 0⟩ false).1 (by decide)

/-- Claim C2 (counterexample): the holiday exclusion does NOT match on the
calendar date alone. With the rule anchored at 2007-12-31 09:00 (day 13878,
time of day 9h in microseconds), the query over (2007-12-31 00:00,
2008-01-02 00:00) exclusive returns an occurrence on day 13879 = 2008-01-01,
the new_years entry of HOLIDAYS, because the exclusion only removes the
exact midnight datetime while the occurrence carries the anchor time of
day. -/
theorem c2_holiday_date_in_results :
    (NDT.mk 13879 0) ∈ HOLIDAYS ∧
    trading_days ⟨13878, 32400000000⟩ ⟨13878, 0⟩ ⟨13880, 0⟩ false =
      [⟨13878, 32400000000⟩, ⟨13879, 32400000000⟩] ∧
    (NDT.mk 13879 32400000000) ∈
      trading_days ⟨13878, 32400000000⟩ ⟨13878, 0⟩ ⟨13880, 0⟩ false ∧
    (NDT.mk 13879 32400000000).date = (NDT.mk 13879 0).date := by
  decide

/-- Claim C2 (amended): the exclusion test matches the exact datetime (date
and time of day), not the calendar date alone; since every HOLIDAYS entry
carries midnight, holiday dates are guaranteed absent from every
trading_days result exactly when the rule anchor carries midnight time of
day (then occurrences carry midnight too and the exact match fires). -/
theorem c2_midnight_anchor_excludes_holiday_dates (anchor after before : NDT)
    (inc : Bool) (ha : anchor.tod = 0) :
    ∀ x ∈ trading_days anchor after before inc,
      ∀ h ∈ HOLIDAYS, x.date ≠ h.date := by
  intro x hx h hh heq
  unfold trading_days at hx
  rw [mem_rsBetween] at hx
  obtain ⟨_, _, htod, _, hnotin, _⟩ := hx
  have htod0 : ∀ y ∈ HOLIDAYS, y.tod = 0 := by decide
  apply hnotin
  have hxh : x = h := by
    obtain ⟨xd, xt⟩ := x
    obtain ⟨hd, ht⟩ := h
    have h2 := htod0 ⟨hd, ht⟩ hh
    dsimp only at heq htod h2 ⊢
    rw [NDT.mk.injEq]
    omega
  rw [hxh]
  exact hh

/-- Witness for Claim C2 (amended) with a midnight anchor at 2007-12-31 and
the inclusive window from 2007-12-31 to 2008-01-02: the member 2007-12-31 of
the result does not fall on the new_years holiday date. -/
theorem c2_witness : (NDT.mk 13878 0).date ≠ (NDT.mk 13879 0).date :=
  c2_midnight_anchor_excludes_holiday_dates ⟨13878, 0⟩ ⟨13878, 0⟩ ⟨13880, 0⟩
    true rfl ⟨13878, 0⟩ (by decide) ⟨13879, 0⟩ (by decide)

/-- Claim C6 (counterexample): with inclusive=True a bound that
independently qualifies as a trading day (weekday, not excluded, inside the
window) is NOT necessarily included: with the rule anchored at 2008-01-08
(day 13886) and after = 2008-01-07 (day 13885, a Monday, not a holiday),
after is absent from the result because it precedes the anchor. -/
theorem c6_inclusive_bound_missing :
    trading_days ⟨13886, 0⟩ ⟨13885, 0⟩ ⟨13887, 0⟩ true =
      [⟨13886, 0⟩, ⟨13887, 0⟩] ∧
    isWeekday 13885 = true ∧ (NDT.mk 13885 0) ∉ HOLIDAYS ∧
    NDT.le ⟨13885, 0⟩ ⟨13885, 0⟩ ∧ NDT.le ⟨13885, 0⟩ ⟨13887, 0⟩ ∧
    (NDT.mk 13885 0) ∉ trading_days ⟨13886, 0⟩ ⟨13885, 0⟩ ⟨13887, 0⟩ true := by
  decide

/-- Claim C6 (amended): with inclusive=False the result never contains a
datetime equal to after or to before; with inclusive=True the bound after
(resp. before) is contained if and only if it is an occurrence of the rule
inside the window: its date is on or after the anchor date, its time of day
equals the anchor time of day, its date is a weekday, it is not an exact
match of a HOLIDAYS entry, and after is chronologically at most before. -/
theorem c6_inclusive_bounds_characterization (anchor after before : NDT) :
    (after ∉ trading_days anchor after before false ∧
     before ∉ trading_days anchor after before false) ∧
    ((after ∈ trading_days anchor after before true ↔
        anchor.date ≤ after.date ∧ after.tod = anchor.tod ∧
          isWeekday after.date = true ∧ after ∉ HOLIDAYS ∧
          NDT.le after before) ∧
     (before ∈ trading_days anchor after before true ↔
        anchor.date ≤ before.date ∧ before.tod = anchor.tod ∧
          isWeekday before.date = true ∧ before ∉ HOLIDAYS ∧
          NDT.le after before)) := by
  constructor
  · constructor
    · intro hx
      unfold trading_days at hx
      rw [mem_rsBetween] at hx
      obtain ⟨_, _, _, _, _, hw⟩ := hx
      obtain ⟨h1, h2⟩ := window_strict hw
      unfold NDT.lt at h1
      omega
    · intro hx
      unfold trading_days at hx
      rw [mem_rsBetween] at hx
      obtain ⟨_, _, _, _, _, hw⟩ := hx
      obtain ⟨h1, h2⟩ := window_strict hw
      unfold NDT.lt at h2
      omega
  · constructor
    · constructor
      · intro hx
        unfold trading_days at hx
        rw [mem_rsBetween] at hx
        obtain ⟨ha2, hb, ht, hwd, hni, hw⟩ := hx
        exact ⟨ha2, ht, hwd, hni, (window_bounds hw).2⟩
      · rintro ⟨ha2, ht, hwd, hni, hab⟩
        unfold trading_days
        rw [mem_rsBetween]
        refine ⟨ha2, ?_, ht, hwd, hni, ?_⟩
        · unfold NDT.le at hab
          omega
        · unfold inWindow
          simp only [Bool.and_eq_true, decide_eq_true_eq]
          exact ⟨ndt_le_refl after, hab⟩
    · constructor
      · intro hx
        unfold trading_days at hx
        rw [mem_rsBetween] at hx
        obtain ⟨ha2, hb, ht, hwd, hni, hw⟩ := hx
        exact ⟨ha2, ht, hwd, hni, (window_bounds hw).1⟩
      · rintro ⟨ha2, ht, hwd, hni, hab⟩
        unfold trading_days
        rw [mem_rsBetween]
        refine ⟨ha2, by omega, ht, hwd, hni, ?_⟩
        unfold inWindow
        simp only [Bool.and_eq_true, decide_eq_true_eq]
        exact ⟨hab, ndt_le_refl before⟩

/-- Witness for Claim C6 (amended): with the anchor at 2008-01-07 midnight
and after equal to the anchor, after satisfies the occurrence conditions and
is indeed a member of the inclusive result. -/
theorem c6_witness :
    (NDT.mk 13885 0) ∈ trading_days ⟨13885, 0⟩ ⟨13885, 0⟩ ⟨13887, 0⟩ true :=
  ((c6_inclusive_bounds_characterization ⟨13885, 0⟩ ⟨13885, 0⟩
      ⟨13887, 0⟩).2.1).mpr (by decide)

/-- Claim C7 (counterexample): the result does not contain every qualifying
weekday of the window exactly once: with the rule anchored at 2008-01-15
(day 13893) and the inclusive window from 2008-01-14 (day 13892, a Monday,
not a holiday, inside the window) to 2008-01-16, the qualifying weekday
2008-01-14 appears zero times because it precedes the anchor. -/
theorem c7_qualifying_weekday_missing :
    trading_days ⟨13893, 0⟩ ⟨13892, 0⟩ ⟨13894, 0⟩ true =
      [⟨13893, 0⟩, ⟨13894, 0⟩] ∧
    isWeekday 13892 = true ∧ (NDT.mk 13892 0) ∉ HOLIDAYS ∧
    inWindow ⟨13892, 0⟩ ⟨13894, 0⟩ true ⟨13892, 0⟩ = true ∧
    (trading_days ⟨13893, 0⟩ ⟨13892, 0⟩ ⟨13894, 0⟩ true).count ⟨13892, 0⟩
      = 0 := by
  decide

/-- Claim C7 (amended): every trading_days result is strictly increasing,
contains no Saturday or Sunday (Python weekday numbers 5 and 6), and
contains exactly once precisely the occurrences of the rule inside the
window: the datetimes with a weekday date between the anchor date and the
before date, time of day equal to the anchor time of day, that are not an
exact match of a HOLIDAYS entry; qualifying weekdays of the window strictly
before the anchor date are absent. -/
theorem c7_sequence_invariants (anchor after before : NDT) (inc : Bool) :
    (trading_days anchor after before inc).Pairwise NDT.lt ∧
    (∀ x ∈ trading_days anchor after before inc, pyWeekday x.date < 5) ∧
    (∀ x, x ∈ trading_days anchor after before inc ↔
      anchor.date ≤ x.date ∧ x.date ≤ before.date ∧ x.tod = anchor.tod ∧
        isWeekday x.date = true ∧ x ∉ HOLIDAYS ∧
        inWindow after before inc x = true) ∧
    (∀ x ∈ trading_days anchor after before inc,
      (trading_days anchor after before inc).count x = 1) := by
  have hp : (trading_days anchor after before inc).Pairwise NDT.lt := by
    unfold trading_days rsBetween
    exact resultUpTo_pairwise anchor HOLIDAYS _ after before inc
  refine ⟨hp, ?_, ?_, ?_⟩
  · intro x hx
    unfold trading_days at hx
    rw [mem_rsBetween] at hx
    have hwd := hx.2.2.2.1
    unfold isWeekday at hwd
    rw [decide_eq_true_eq] at hwd
    exact hwd
  · intro x
    unfold trading_days
    exact mem_rsBetween
  · intro x hx
    apply List.count_eq_one_of_mem _ hx
    exact hp.imp (fun h => ndt_ne_of_lt h)

/-- Witness for Claim C7 (amended): the member 2008-01-15 of the concrete
counterexample query is a weekday (Python weekday number below 5). -/
theorem c7_witness : pyWeekday 13893 < 5 :=
  (c7_sequence_invariants ⟨13893, 0⟩ ⟨13892, 0⟩ ⟨13894, 0⟩ true).2.1
    ⟨13893, 0⟩ (by decide)

/-- Claim C9: querying the same window twice gives identical results, and
the repeated query leaves the occurrence cache unchanged (no re-derivation
from the anchor); moreover the cached answer always equals the plain
trading_days answer, whatever the cache state. -/
theorem c9_repeat_query_cache_stable (anchor : NDT) (cache : Nat)
    (after before : NDT) (inc : Bool) :
    (tradingDaysCached anchor HOLIDAYS
        ((tradingDaysCached anchor HOLIDAYS cache after before inc).2)
        after before inc).1 =
      (tradingDaysCached anchor HOLIDAYS cache after before inc).1 ∧
    (tradingDaysCached anchor HOLIDAYS
        ((tradingDaysCached anchor HOLIDAYS cache after before inc).2)
        after before inc).2 =
      (tradingDaysCached anchor HOLIDAYS cache after before inc).2 ∧
    (tradingDaysCached anchor HOLIDAYS cache after before inc).1 =
      trading_days anchor after before inc := by
  have hn : neededDays anchor before ≤ max cache (neededDays anchor before) :=
    le_max_right _ _
  unfold tradingDaysCached
  dsimp only
  rw [max_eq_left hn]
  refine ⟨rfl, rfl, ?_⟩
  unfold trading_days
  exact resultUpTo_stable anchor HOLIDAYS after before inc _ hn
